import Mathlib

/-!
Verification of the dependency-ordering and DDL-rewriting pipeline of the
`snowcli appify` plugin (`src/snowcli/cli/appify/{metadata,generate,commands,util}.py`).

Text is modelled as `List Char` (Python `str` is a sequence of characters).
Identifiers and fully-qualified names are `String`.

The helpers `IDENTIFIER`, `DB_SCHEMA_AND_NAME`, `unquote_identifier`,
`to_identifier` live in `snowcli.cli.project.util`, which is not part of the
sources; they are modelled from the spec where marked.
-/

namespace Appify

/-- Errors raised by the appify pipeline.  `malformedDDL` corresponds to
`MalformedDDLError(property, path)` (the filesystem path is not modelled),
`notAQualifiedName` to `NotAQualifiedNameError`, `unsupportedExternalReference`
to `UnsupportedExternalReferenceError`, and `valueError` to Python's built-in
`ValueError` (as raised by `str.index` on a missing substring). -/
inductive AppifyError where
  | malformedDDL (property : String)
  | notAQualifiedName (id : String)
  | unsupportedExternalReference (kind : String) (id : String)
  | valueError (msg : String)
deriving DecidableEq, Repr

instance {ε α : Type} [DecidableEq ε] [DecidableEq α] : DecidableEq (Except ε α)
  | .ok a, .ok b =>
    if h : a = b then .isTrue (by rw [h]) else .isFalse (fun he => h (by injection he))
  | .error a, .error b =>
    if h : a = b then .isTrue (by rw [h]) else .isFalse (fun he => h (by injection he))
  | .ok _, .error _ => .isFalse (fun he => Except.noConfusion he)
  | .error _, .ok _ => .isFalse (fun he => Except.noConfusion he)

/-- Python `str.upper` restricted to ASCII, as a `String` function that the
kernel can evaluate (identifiers handled by the code are ASCII). -/
def pyUpper (s : String) : String := String.mk (s.toList.map Char.toUpper)

/-- Python `str.lower` restricted to ASCII, kernel-evaluable. -/
def pyLower (s : String) : String := String.mk (s.toList.map Char.toLower)

/-! ### Python `str.replace`, modelled on `List Char` -/

/-- One fuel-indexed step of Python `str.replace`: scan left to right, replace
each non-overlapping occurrence of `pat`, never rescanning replaced text.
`fuel` bounds the recursion; it is irrelevant as long as it is at least the
length of the subject string (see `pyReplaceAux_fuel`). -/
def pyReplaceAux (pat rep : List Char) : Nat → List Char → List Char
  | _, [] => []
  | 0, s => s
  | fuel + 1, c :: rest =>
    if pat.isPrefixOf (c :: rest) then
      rep ++ pyReplaceAux pat rep fuel ((c :: rest).drop pat.length)
    else
      c :: pyReplaceAux pat rep fuel rest

/-- Python `s.replace(pat, rep)` for a non-empty pattern (every pattern used by
the code under verification is non-empty; for the empty pattern this model
returns the string unchanged). -/
def pyReplace (pat rep s : List Char) : List Char :=
  if pat = [] then s else pyReplaceAux pat rep s.length s

theorem pyReplaceAux_fuel (pat rep : List Char) (hpat : pat ≠ []) :
    ∀ f₁ f₂ s, s.length ≤ f₁ → s.length ≤ f₂ →
      pyReplaceAux pat rep f₁ s = pyReplaceAux pat rep f₂ s := by
  intro f₁
  induction f₁ with
  | zero =>
    intro f₂ s h₁ _
    have hs : s = [] := List.eq_nil_of_length_eq_zero (Nat.le_zero.mp h₁)
    subst hs
    cases f₂ <;> simp [pyReplaceAux]
  | succ f ih =>
    intro f₂ s h₁ h₂
    cases s with
    | nil => cases f₂ <;> simp [pyReplaceAux]
    | cons c rest =>
      cases f₂ with
      | zero => simp at h₂
      | succ f₂' =>
        simp only [pyReplaceAux]
        by_cases hpre : pat.isPrefixOf (c :: rest)
        · rw [if_pos hpre, if_pos hpre]
          have hplen : 1 ≤ pat.length := by
            cases pat with
            | nil => exact absurd rfl hpat
            | cons p ps => simp
          have hd : ((c :: rest).drop pat.length).length ≤ f := by
            simp only [List.length_drop, List.length_cons]
            simp only [List.length_cons] at h₁
            omega
          have hd₂ : ((c :: rest).drop pat.length).length ≤ f₂' := by
            simp only [List.length_drop, List.length_cons]
            simp only [List.length_cons] at h₂
            omega
          rw [ih f₂' _ hd hd₂]
        · rw [if_neg hpre, if_neg hpre]
          have hr : rest.length ≤ f := by
            simp only [List.length_cons] at h₁; omega
          have hr₂ : rest.length ≤ f₂' := by
            simp only [List.length_cons] at h₂; omega
          rw [ih f₂' _ hr hr₂]

theorem pyReplace_nil (pat rep : List Char) : pyReplace pat rep [] = [] := by
  by_cases h : pat = [] <;> simp [pyReplace, h, pyReplaceAux]

theorem pyReplace_cons_pos (pat rep : List Char) (c : Char) (rest : List Char)
    (hpat : pat ≠ []) (hpre : pat.isPrefixOf (c :: rest)) :
    pyReplace pat rep (c :: rest) =
      rep ++ pyReplace pat rep ((c :: rest).drop pat.length) := by
  simp only [pyReplace, hpat, if_false]
  simp only [List.length_cons, pyReplaceAux]
  rw [if_pos hpre]
  congr 1
  by_cases hdrop : (c :: rest).drop pat.length = []
  · rw [hdrop]
    cases h' : ((c :: rest).drop pat.length).length <;> simp [hdrop, pyReplaceAux]
  · apply pyReplaceAux_fuel pat rep hpat
    · simp only [List.length_drop, List.length_cons]
      have : 1 ≤ pat.length := by
        cases pat with
        | nil => exact absurd rfl hpat
        | cons p ps => simp
      omega
    · exact Nat.le_refl _

theorem pyReplace_cons_neg (pat rep : List Char) (c : Char) (rest : List Char)
    (hpat : pat ≠ []) (hpre : ¬ pat.isPrefixOf (c :: rest)) :
    pyReplace pat rep (c :: rest) = c :: pyReplace pat rep rest := by
  simp only [pyReplace, hpat, if_false]
  simp only [List.length_cons, pyReplaceAux]
  rw [if_neg hpre]

theorem isPrefixOf_cons_cons (p q : Char) (ps ss : List Char) :
    (p :: ps).isPrefixOf (q :: ss) = (p == q && ps.isPrefixOf ss) := rfl

/-- A pattern starting with a character that does not occur in `a` finds no
occurrence inside or starting in `a`, so replacement skips over `a`. -/
theorem pyReplace_append_left (h : Char) (pt rep : List Char) (a s : List Char)
    (ha : h ∉ a) :
    pyReplace (h :: pt) rep (a ++ s) = a ++ pyReplace (h :: pt) rep s := by
  induction a with
  | nil => simp
  | cons c a' ih =>
    have hne : ¬ (h :: pt).isPrefixOf (c :: (a' ++ s)) := by
      rw [isPrefixOf_cons_cons]
      have : h ≠ c := fun he => ha (he ▸ List.mem_cons_self c a')
      simp [this]
    rw [List.cons_append, pyReplace_cons_neg _ _ _ _ (by simp) hne,
      ih (fun hm => ha (List.mem_cons_of_mem c hm)), List.cons_append]

/-- A pattern starting with a character that does not occur in `s` at all
leaves `s` unchanged. -/
theorem pyReplace_of_head_notMem (h : Char) (pt rep : List Char) (s : List Char)
    (hs : h ∉ s) : pyReplace (h :: pt) rep s = s := by
  have := pyReplace_append_left h pt rep s [] hs
  simpa [pyReplace_nil] using this

/-- Patterns whose second character disagrees with the subject's second
character are not prefixes. -/
theorem not_isPrefixOf_of_second_ne (x y x' y' : Char) (ps ss : List Char)
    (hy : y ≠ y') :
    ¬ (x :: y :: ps).isPrefixOf (x' :: y' :: ss) := by
  rw [isPrefixOf_cons_cons, isPrefixOf_cons_cons]
  simp [hy]

/-- Replacement at an occurrence sitting at the head of the subject. -/
theorem pyReplace_needle_here (pat rep : List Char) (hpat : pat ≠ [])
    (t : List Char) :
    pyReplace pat rep (pat ++ t) = rep ++ pyReplace pat rep t := by
  cases pat with
  | nil => exact absurd rfl hpat
  | cons p ps =>
    have hpre : (p :: ps).isPrefixOf (p :: (ps ++ t)) := by
      rw [List.isPrefixOf_iff_prefix, ← List.cons_append]
      exact List.prefix_append _ _
    have h := pyReplace_cons_pos (p :: ps) rep p (ps ++ t) hpat hpre
    rw [List.cons_append, h]
    congr 1
    rw [← List.cons_append, List.drop_left]

/-! ### Identifier model (`snowcli.cli.project.util` is not among the sources;
its pieces are modelled from the spec where marked) -/

/-- Word characters of an unquoted Snowflake identifier (`\w` plus `$`). -/
def isWordChar (c : Char) : Bool :=
  c.isAlpha || c.isDigit || c == '_' || c == '$'

/-- Characters an unquoted Snowflake identifier may start with. -/
def isIdentStart (c : Char) : Bool :=
  c.isAlpha || c == '_'

/-- Modelled from the spec: scanner for the body of a double-quoted
identifier in the `IDENTIFIER` grammar of `snowcli.cli.project.util` (not
among the sources).  Returns the raw interior (keeping `""` escape pairs) and
the input remaining after the closing quote; `none` when unterminated. -/
def quotedAux : List Char → Option (List Char × List Char)
  | [] => none
  | '"' :: '"' :: rest => (quotedAux rest).map (fun p => ('"' :: '"' :: p.1, p.2))
  | '"' :: rest => some ([], rest)
  | c :: rest => (quotedAux rest).map (fun p => (c :: p.1, p.2))

/-- Modelled from the spec: one identifier token of the three-part name
grammar — either a double-quoted identifier (with `""` escaping an inner
quote) or an unquoted identifier (letter or underscore, then word
characters).  Returns the token text (quotes included) and the rest. -/
def parseIdent : List Char → Option (List Char × List Char)
  | [] => none
  | '"' :: rest => (quotedAux rest).map (fun p => ('"' :: p.1 ++ ['"'], p.2))
  | c :: rest =>
    if isIdentStart c then
      some (c :: rest.takeWhile isWordChar, rest.dropWhile isWordChar)
    else none

/-- `split_fqn_id` from `appify/util.py`: splits `db.schema.name` into its
parts, quoting carried over; the name may carry a parenthesized argument
list.  Returns `none` where Python raises `NotAQualifiedNameError`.  The
underlying `DB_SCHEMA_AND_NAME` regex is modelled from the spec: exactly
three dot-separated identifier parts, the optional argument suffix
`[(].*[)]` spanning the whole tail without newlines. -/
def split_fqn_id (id : String) : Option (String × String × String) := do
  let (i1, r1) ← parseIdent id.toList
  match r1 with
  | '.' :: r1' => do
    let (i2, r2) ← parseIdent r1'
    match r2 with
    | '.' :: r2' => do
      let (i3, r3) ← parseIdent r2'
      match r3 with
      | [] => some (String.mk i1, String.mk i2, String.mk i3)
      | '(' :: _ =>
        if r3.getLast? = some ')' ∧ ¬ r3.contains '\n' then
          some (String.mk i1, String.mk i2, String.mk (i3 ++ r3))
        else none
      | _ => none
    | _ => none
  | _ => none

/-- Collapses the `""` escape pairs of a quoted identifier's interior. -/
def unescapeQuotes : List Char → List Char
  | '"' :: '"' :: rest => '"' :: unescapeQuotes rest
  | c :: rest => c :: unescapeQuotes rest
  | [] => []

/-- Modelled from the spec: `unquote_identifier` from
`snowcli.cli.project.util` (not among the sources) — a fully quoted
identifier loses its quotes and collapses `""` escapes; anything else is
case-folded to upper case. -/
def unquote_identifier (s : String) : String :=
  match s.toList with
  | '"' :: rest =>
    match quotedAux rest with
    | some (raw, []) => String.mk (unescapeQuotes raw)
    | _ => pyUpper s
  | _ => pyUpper s

/-- `fqn_matches` from `appify/util.py`: `True` iff the two names agree
part-by-part after `unquote_identifier`; where Python raises
`NotAQualifiedNameError` this model returns `Except.error`. -/
def fqn_matches (a b : String) : Except AppifyError Bool :=
  match split_fqn_id a with
  | none => .error (.notAQualifiedName a)
  | some (a1, a2, a3) =>
    match split_fqn_id b with
    | none => .error (.notAQualifiedName b)
    | some (b1, b2, b3) =>
      .ok (decide (unquote_identifier a1 = unquote_identifier b1 ∧
                   unquote_identifier a2 = unquote_identifier b2 ∧
                   unquote_identifier a3 = unquote_identifier b3))

/-! ### Stage import relocation (`_rewrite_imports` in `appify/generate.py`) -/

/-- The inner `_rewrite_imports` helper of `rewrite_ddl`: for each known
stage id in order, every occurrence of `@<stage_id><suffix>` is replaced by
`/stages/<db>/<schema>/<name><suffix>`.  A stage id that fails to parse makes
Python raise `NotAQualifiedNameError`. -/
def rewrite_imports (stage_ids : List String) (suffix : List Char)
    (stmt : List Char) : Except AppifyError (List Char) :=
  stage_ids.foldlM
    (fun st sid =>
      match split_fqn_id sid with
      | none => .error (.notAQualifiedName sid)
      | some (db, schema, name) =>
        .ok (pyReplace ('@' :: (sid.toList ++ suffix))
          ("/stages/".toList ++ db.toList ++ '/' :: schema.toList ++
            '/' :: (name.toList ++ suffix)) st))
    stmt

/-- The needle the stage list `[mydb.myschema.mystage]` searches for with the
callable suffix `/`. -/
def c5pat : List Char := '@' :: "mydb.myschema.mystage/".toList

/-- The replacement for `c5pat`. -/
def c5rep : List Char := "/stages/mydb/myschema/mystage/".toList

/-- C5: DDL text containing the token `@mydb.myschema.mystage/path/to/file`,
rewritten against the stage-reference list `[mydb.myschema.mystage]` with the
callable suffix `/` (generate.py line 201), has that token replaced by
`/stages/mydb/myschema/mystage/path/to/file`, while an occurrence of the
unrelated stage-like token `@other.stage/` is left byte-for-byte unchanged.
The context strings `a`, `b`, `c` are arbitrary as long as they contain no
further `@` (so that the named tokens are the only stage-like tokens). -/
theorem rewrite_imports_relocates_known_stage (a b c : List Char)
    (ha : '@' ∉ a) (hb : '@' ∉ b) (hc : '@' ∉ c) :
    rewrite_imports ["mydb.myschema.mystage"] "/".toList
        (a ++ "@mydb.myschema.mystage/path/to/file".toList ++ b ++
          "@other.stage/".toList ++ c) =
      .ok (a ++ "/stages/mydb/myschema/mystage/path/to/file".toList ++ b ++
          "@other.stage/".toList ++ c) := by
  have hrw : ∀ stmt, rewrite_imports ["mydb.myschema.mystage"] "/".toList stmt
      = .ok (pyReplace c5pat c5rep stmt) := fun _ => rfl
  rw [hrw]
  congr 1
  simp only [List.append_assoc]
  have hpt : c5pat = '@' :: "mydb.myschema.mystage/".toList := rfl
  have e5 : pyReplace c5pat c5rep c = c := by
    rw [hpt]; exact pyReplace_of_head_notMem '@' _ _ c hc
  have e4 : pyReplace c5pat c5rep ("@other.stage/".toList ++ c) =
      "@other.stage/".toList ++ c := by
    have hnp : ¬ ('@' :: 'm' :: "ydb.myschema.mystage/".toList).isPrefixOf
        ('@' :: 'o' :: ("ther.stage/".toList ++ c)) :=
      not_isPrefixOf_of_second_ne '@' 'm' '@' 'o' _ _ (by decide)
    have step1 : pyReplace c5pat c5rep ('@' :: ("other.stage/".toList ++ c)) =
        '@' :: pyReplace c5pat c5rep ("other.stage/".toList ++ c) :=
      pyReplace_cons_neg c5pat c5rep '@' ("other.stage/".toList ++ c)
        (by rw [hpt]; simp) hnp
    have step2 : pyReplace c5pat c5rep ("other.stage/".toList ++ c) =
        "other.stage/".toList ++ pyReplace c5pat c5rep c := by
      rw [hpt]; exact pyReplace_append_left '@' _ _ "other.stage/".toList c (by decide)
    show pyReplace c5pat c5rep ('@' :: ("other.stage/".toList ++ c)) =
        '@' :: ("other.stage/".toList ++ c)
    rw [step1, step2, e5]
  have e3 : pyReplace c5pat c5rep (b ++ ("@other.stage/".toList ++ c)) =
      b ++ ("@other.stage/".toList ++ c) := by
    rw [hpt]
    rw [pyReplace_append_left '@' _ _ b _ hb]
    rw [← hpt, e4]
  have e2 : pyReplace c5pat c5rep
      ("path/to/file".toList ++ (b ++ ("@other.stage/".toList ++ c))) =
      "path/to/file".toList ++ (b ++ ("@other.stage/".toList ++ c)) := by
    rw [hpt]
    rw [pyReplace_append_left '@' _ _ "path/to/file".toList _ (by decide)]
    rw [← hpt, e3]
  have e1 : pyReplace c5pat c5rep
      ("@mydb.myschema.mystage/path/to/file".toList ++
        (b ++ ("@other.stage/".toList ++ c))) =
      c5rep ++ ("path/to/file".toList ++ (b ++ ("@other.stage/".toList ++ c))) := by
    have h := pyReplace_needle_here c5pat c5rep (by rw [hpt]; simp)
      ("path/to/file".toList ++ (b ++ ("@other.stage/".toList ++ c)))
    have h' : pyReplace c5pat c5rep
        ("@mydb.myschema.mystage/path/to/file".toList ++
          (b ++ ("@other.stage/".toList ++ c))) =
        c5rep ++ pyReplace c5pat c5rep
          ("path/to/file".toList ++ (b ++ ("@other.stage/".toList ++ c))) := h
    rw [h', e2]
  have e0 : pyReplace c5pat c5rep
      (a ++ ("@mydb.myschema.mystage/path/to/file".toList ++
        (b ++ ("@other.stage/".toList ++ c)))) =
      a ++ pyReplace c5pat c5rep
        ("@mydb.myschema.mystage/path/to/file".toList ++
          (b ++ ("@other.stage/".toList ++ c))) := by
    rw [hpt]; exact pyReplace_append_left '@' _ _ a _ ha
  show pyReplace c5pat c5rep
      (a ++ ("@mydb.myschema.mystage/path/to/file".toList ++
        (b ++ ("@other.stage/".toList ++ c)))) =
      a ++ (c5rep ++ ("path/to/file".toList ++ (b ++ ("@other.stage/".toList ++ c))))
  rw [e0, e1]

/-! ### Dependency graph and topological ordering

`MetadataDumper.get_ordering` in `appify/metadata.py` runs
`graphlib.TopologicalSorter(self.ordering_graph).static_order()`.  The graph
maps each object to the set of names it depends on; `static_order` returns
every node (keys and dependency-only names alike) with dependencies first, or
raises `CycleError` carrying nodes of a dependency cycle.  The model below
computes the same relation Kahn-style: rounds of ready nodes, failing with
the set of unresolvable nodes when no node is ready. -/

/-- A dependency graph: each pair maps an object's fully-qualified name to
the list of names it depends on (`self.ordering_graph`, a dict of sets). -/
abbrev Graph := List (String × List String)

/-- All nodes of the graph: keys plus every name appearing as a dependency
(graphlib includes dependency-only names in the sorted order). -/
def graphNodes (g : Graph) : List String :=
  (g.map Prod.fst ++ (g.map Prod.snd).flatten).dedup

/-- `a` depends on `b`: some adjacency entry for `a` lists `b`. -/
def Edge (g : Graph) (a b : String) : Prop := ∃ p ∈ g, p.1 = a ∧ b ∈ p.2

/-- The dependencies of `n` recorded in `g`. -/
def depsOf (g : Graph) (n : String) : List String :=
  ((g.filter (fun p => p.1 == n)).map Prod.snd).flatten

theorem edge_iff_mem_depsOf (g : Graph) (a b : String) :
    Edge g a b ↔ b ∈ depsOf g a := by
  simp only [Edge, depsOf, List.mem_flatten, List.mem_map, List.mem_filter,
    beq_iff_eq]
  constructor
  · rintro ⟨p, hp, rfl, hb⟩
    exact ⟨p.2, ⟨p, ⟨hp, rfl⟩, rfl⟩, hb⟩
  · rintro ⟨l, ⟨p, ⟨hp, he⟩, rfl⟩, hb⟩
    exact ⟨p, hp, he, hb⟩

/-- One-pass ready set: the nodes of `rem` all of whose dependencies have
already been emitted (are no longer in `rem`). -/
def readyList (g : Graph) (rem : List String) : List String :=
  rem.filter (fun n => decide (∀ b ∈ depsOf g n, ¬ b ∈ rem))

/-- Fuel-indexed Kahn rounds: emit all ready nodes, recurse on the rest;
fail with the remaining set when nothing is ready. -/
def kahnAux (g : Graph) : Nat → List String → Except (List String) (List String)
  | 0, rem => if rem.isEmpty then .ok [] else .error rem
  | fuel + 1, rem =>
    if rem.isEmpty then .ok []
    else
      let ready := readyList g rem
      if ready.isEmpty then .error rem
      else
        match kahnAux g fuel (rem.filter (fun n => decide (¬ n ∈ ready))) with
        | .error e => .error e
        | .ok rest => .ok (ready ++ rest)

/-- `MetadataDumper.get_ordering`: the topological order of the recorded
dependency graph, or the unresolvable nodes when stuck on a cycle (where
graphlib raises `CycleError`). -/
def get_ordering (g : Graph) : Except (List String) (List String) :=
  kahnAux g (graphNodes g).length (graphNodes g)

instance (g : Graph) (a b : String) : Decidable (Edge g a b) := by
  unfold Edge; infer_instance

/-- `n` lies on a dependency cycle of `g`. -/
def OnCycle (g : Graph) (n : String) : Prop := Relation.TransGen (Edge g) n n

/-- `g` contains a dependency cycle. -/
def HasCycle (g : Graph) : Prop := ∃ n, OnCycle g n

theorem edge_mem_graphNodes (g : Graph) (a b : String) (h : Edge g a b) :
    a ∈ graphNodes g ∧ b ∈ graphNodes g := by
  obtain ⟨p, hp, ha, hb⟩ := h
  unfold graphNodes
  constructor
  · exact List.mem_dedup.mpr (List.mem_append_left _
      (List.mem_map.mpr ⟨p, hp, ha⟩))
  · exact List.mem_dedup.mpr (List.mem_append_right _
      (List.mem_flatten.mpr ⟨p.2, List.mem_map.mpr ⟨p, hp, rfl⟩, hb⟩))

theorem kahnAux_ok_perm (g : Graph) :
    ∀ (f : Nat) (rem l : List String), kahnAux g f rem = .ok l → l.Perm rem := by
  intro f
  induction f with
  | zero =>
    intro rem l h
    simp only [kahnAux] at h
    by_cases hr : rem.isEmpty
    · rw [if_pos hr] at h
      injection h with h'
      subst h'
      rw [List.isEmpty_iff] at hr
      subst hr
      exact List.Perm.refl []
    · rw [if_neg hr] at h
      exact absurd h (by simp)
  | succ f ih =>
    intro rem l h
    simp only [kahnAux] at h
    by_cases hr : rem.isEmpty
    · rw [if_pos hr] at h
      injection h with h'
      subst h'
      rw [List.isEmpty_iff] at hr
      subst hr
      exact List.Perm.refl []
    · rw [if_neg hr] at h
      by_cases hready : (readyList g rem).isEmpty
      · rw [if_pos hready] at h
        exact absurd h (by simp)
      · rw [if_neg hready] at h
        cases hk : kahnAux g f (rem.filter fun n => decide (¬ n ∈ readyList g rem)) with
        | error e =>
          rw [hk] at h
          exact absurd h (by simp)
        | ok rest =>
          rw [hk] at h
          injection h with h'
          subst h'
          have hp : rest.Perm (rem.filter fun n => decide (¬ n ∈ readyList g rem)) :=
            ih _ _ hk
          have hfe : (rem.filter fun n => decide (¬ n ∈ readyList g rem)) =
              rem.filter (fun n => ! decide (∀ b ∈ depsOf g n, ¬ b ∈ rem)) := by
            apply List.filter_congr
            intro x hx
            by_cases hP : ∀ b ∈ depsOf g x, ¬ b ∈ rem
            · have hxready : x ∈ readyList g rem :=
                List.mem_filter.mpr ⟨hx, by simpa using hP⟩
              rw [decide_eq_false (show ¬ x ∉ readyList g rem from fun hcon => hcon hxready),
                decide_eq_true hP]
              rfl
            · have hxnotready : x ∉ readyList g rem := fun hmem =>
                hP (by simpa using (List.mem_filter.mp hmem).2)
              rw [decide_eq_true hxnotready, decide_eq_false hP]
              rfl
          refine (List.Perm.append_left (readyList g rem) (hfe ▸ hp)).trans ?_
          unfold readyList
          exact List.filter_append_perm _ rem

theorem kahnAux_ok_edge (g : Graph) :
    ∀ (f : Nat) (rem l : List String), kahnAux g f rem = .ok l → rem.Nodup →
      ∀ a b, Edge g a b → a ∈ rem → b ∈ rem →
        l.indexOf b < l.indexOf a := by
  intro f
  induction f with
  | zero =>
    intro rem l h _ a b _ ha _
    simp only [kahnAux] at h
    by_cases hr : rem.isEmpty
    · rw [List.isEmpty_iff] at hr
      subst hr
      exact absurd ha (List.not_mem_nil a)
    · rw [if_neg hr] at h
      exact absurd h (by simp)
  | succ f ih =>
    intro rem l h hnd a b hab ha hb
    simp only [kahnAux] at h
    by_cases hr : rem.isEmpty
    · rw [List.isEmpty_iff] at hr
      subst hr
      exact absurd ha (List.not_mem_nil a)
    · rw [if_neg hr] at h
      by_cases hready : (readyList g rem).isEmpty
      · rw [if_pos hready] at h
        exact absurd h (by simp)
      · rw [if_neg hready] at h
        cases hk : kahnAux g f (rem.filter fun n => decide (¬ n ∈ readyList g rem)) with
        | error e =>
          rw [hk] at h
          exact absurd h (by simp)
        | ok rest =>
          rw [hk] at h
          injection h with h'
          subst h'
          have hbdeps : b ∈ depsOf g a := (edge_iff_mem_depsOf g a b).mp hab
          have hanotready : a ∉ readyList g rem := by
            intro hmem
            have := (List.mem_filter.mp hmem).2
            rw [decide_eq_true_eq] at this
            exact this b hbdeps hb
          have harem' : a ∈ rem.filter fun n => decide (¬ n ∈ readyList g rem) :=
            List.mem_filter.mpr ⟨ha, by simpa using hanotready⟩
          have hrest_perm := kahnAux_ok_perm g f _ rest hk
          have harest : a ∈ rest := hrest_perm.mem_iff.mpr harem'
          by_cases hbready : b ∈ readyList g rem
          · have hidxb : (readyList g rem ++ rest).indexOf b =
                (readyList g rem).indexOf b := List.indexOf_append_of_mem hbready
            have hidxa : (readyList g rem ++ rest).indexOf a =
                (readyList g rem).length + rest.indexOf a :=
              List.indexOf_append_of_not_mem hanotready
            have hblt : (readyList g rem).indexOf b < (readyList g rem).length :=
              List.indexOf_lt_length.mpr hbready
            omega
          · have hbrem' : b ∈ rem.filter fun n => decide (¬ n ∈ readyList g rem) :=
              List.mem_filter.mpr ⟨hb, by simpa using hbready⟩
            have hnd' : (rem.filter fun n => decide (¬ n ∈ readyList g rem)).Nodup :=
              hnd.filter _
            have hlt := ih _ rest hk hnd' a b hab harem' hbrem'
            have hidxb : (readyList g rem ++ rest).indexOf b =
                (readyList g rem).length + rest.indexOf b :=
              List.indexOf_append_of_not_mem hbready
            have hidxa : (readyList g rem ++ rest).indexOf a =
                (readyList g rem).length + rest.indexOf a :=
              List.indexOf_append_of_not_mem hanotready
            omega

theorem kahnAux_error_stuck (g : Graph) :
    ∀ (f : Nat) (rem e : List String), kahnAux g f rem = .error e →
      rem.length ≤ f →
      e ≠ [] ∧ ∀ n ∈ e, ∃ b, Edge g n b ∧ b ∈ e := by
  intro f
  induction f with
  | zero =>
    intro rem e h hlen
    have hrem : rem = [] := List.eq_nil_of_length_eq_zero (Nat.le_zero.mp hlen)
    subst hrem
    simp [kahnAux] at h
  | succ f ih =>
    intro rem e h hlen
    simp only [kahnAux] at h
    by_cases hr : rem.isEmpty
    · rw [if_pos hr] at h
      exact absurd h (by simp)
    · rw [if_neg hr] at h
      by_cases hready : (readyList g rem).isEmpty
      · rw [if_pos hready] at h
        injection h with h'
        subst h'
        constructor
        · intro hnil
          exact hr (by simp [hnil])
        · intro n hn
          have hall := List.filter_eq_nil_iff.mp (List.isEmpty_iff.mp hready)
          have hnot := hall n hn
          rw [decide_eq_true_eq] at hnot
          push_neg at hnot
          obtain ⟨b, hbdeps, hbrem⟩ := hnot
          exact ⟨b, (edge_iff_mem_depsOf g n b).mpr hbdeps, hbrem⟩
      · rw [if_neg hready] at h
        cases hk : kahnAux g f (rem.filter fun n => decide (¬ n ∈ readyList g rem)) with
        | error e' =>
          rw [hk] at h
          injection h with h'
          subst h'
          have hne : readyList g rem ≠ [] := fun hnil => hready (by simp [hnil])
          obtain ⟨x, hx⟩ := List.exists_mem_of_ne_nil _ hne
          have hxrem : x ∈ rem := (List.mem_filter.mp hx).1
          have hxnot : x ∉ rem.filter fun n => decide (¬ n ∈ readyList g rem) := by
            intro hmem
            have := (List.mem_filter.mp hmem).2
            rw [decide_eq_true_eq] at this
            exact this hx
          have hsub : (rem.filter fun n => decide (¬ n ∈ readyList g rem)).Sublist rem :=
            List.filter_sublist rem
          have hlt : (rem.filter fun n => decide (¬ n ∈ readyList g rem)).length <
              rem.length := by
            rcases Nat.lt_or_ge (rem.filter fun n =>
                decide (¬ n ∈ readyList g rem)).length rem.length with hl | hl
            · exact hl
            · have heq := hsub.eq_of_length (Nat.le_antisymm hsub.length_le hl)
              rw [heq] at hxnot
              exact absurd hxrem hxnot
          exact ih _ _ hk (by omega)
        | ok rest =>
          rw [hk] at h
          exact absurd h (by simp)

/-! ### Reference-graph construction (`MetadataDumper.update_references`,
metadata.py lines 220-249) -/

/-- The function-reference cleanup of metadata.py line 235:
`re.sub(r'^(.*\))(.*)$', r'\1', name) + '"'` — for the newline-free names the
catalog produces this keeps the text up to the last `)` when the name
contains one (otherwise the name is unchanged), then appends one
double-quote character. -/
def clean_function_ref (name : String) : String :=
  let cs := name.toList
  let kept := if cs.contains ')' then (cs.reverse.dropWhile (fun c => c != ')')).reverse
    else cs
  String.mk (kept ++ ['"'])

/-- The node name recorded for one raw reference `(name, domain)`: function
references are cleaned (metadata.py lines 234-237), all other domains keep
the raw name (lines 238-240). -/
def clean_ref_name (ref : String × String) : String :=
  if pyUpper ref.2 = "FUNCTION" then clean_function_ref ref.1 else ref.1

/-- `MetadataDumper.get_object_fully_qualified_name`. -/
def get_object_fully_qualified_name (database schema object_name : String) : String :=
  database ++ "." ++ schema ++ "." ++ object_name

/-- The ordering-graph update of `MetadataDumper.update_references`
(metadata.py line 249): the processed object's entry becomes the set of all
its cleaned reference names — with no filtering against the catalog key set.
Each object is processed once, so the dict insert is an append. -/
def update_references (graph : Graph) (database schema object_name : String)
    (references_list : List (String × String)) : Graph :=
  graph ++ [(get_object_fully_qualified_name database schema object_name,
    (references_list.map clean_ref_name).dedup)]

/-! ### Catalog, external-table discovery, setup statements
(`appify/generate.py`) -/

/-- A catalog entry as stored by `MetadataDumper.update_references` in
`references.json`: the kind label, the (cleaned) reference list as pairs of
referenced name and referenced kind, and the owning database.  The schema
and object-name fields also stored there are unused by the functions
modelled here. -/
structure CatalogEntry where
  kind : String
  references : List (String × String)
  database : String
deriving DecidableEq, Repr

/-- The catalog: fully-qualified name to entry, in insertion order. -/
abbrev Catalog := List (String × CatalogEntry)

/-- `get_external_referenced_tables` from `appify/generate.py`: the
referenced names of kind `table` that do not start with the object's
database name (a raw string-prefix test, `fqn.startswith(database)`). -/
def get_external_referenced_tables (object : CatalogEntry) : List String :=
  ((object.references.filter (fun r => pyLower r.2 == "table")).map Prod.fst).filter
    (fun fqn => ! object.database.toList.isPrefixOf fqn.toList)

/-- `discover_external_tables` from `appify/generate.py`: walk the catalog in
order; an object with external referenced tables whose kind label
(lowercased) is not `table` — the label views carry, "surprisingly" — raises
`UnsupportedExternalReferenceError`; otherwise its external references are
accumulated, deduplicated up to `fqn_matches` (whose own parse failures
propagate).  `discover_step` is the loop body for one catalog entry. -/
def discover_step (seen : List String) (entry : String × CatalogEntry) :
    Except AppifyError (List String) := do
  let ext := get_external_referenced_tables entry.2
  if ext.isEmpty then
    pure seen
  else if pyLower entry.2.kind ≠ "table" then
    throw (.unsupportedExternalReference entry.2.kind entry.1)
  else
    ext.foldlM
      (fun seen2 efqn => do
        let results ← seen2.mapM (fun fqn => fqn_matches efqn fqn)
        pure (if results.any id then seen2 else seen2 ++ [efqn]))
      seen

/-- `discover_external_tables` from `appify/generate.py`: fold
`discover_step` over the catalog in order starting from no seen tables. -/
def discover_external_tables (catalog : Catalog) :
    Except AppifyError (List String) :=
  catalog.foldlM discover_step []

/-- Escapes embedded quotes by doubling them. -/
def escapeQuotes : List Char → List Char
  | '"' :: rest => '"' :: '"' :: escapeQuotes rest
  | c :: rest => c :: escapeQuotes rest
  | [] => []

/-- Modelled from the spec: `to_identifier` from `snowcli.cli.project.util`
(not among the sources) — a name that is already a valid identifier (quoted
or unquoted) is returned unchanged, anything else is wrapped in double
quotes with embedded quotes doubled. -/
def to_identifier (s : String) : String :=
  match parseIdent s.toList with
  | some (_, []) => s
  | _ => String.mk ('"' :: (escapeQuotes s.toList ++ ['"']))

/-- `GRANT_BY_LOWER_KIND` from `appify/generate.py`. -/
def GRANT_BY_LOWER_KIND : List (String × String) :=
  [("function", "usage on function"), ("procedure", "usage on procedure"),
   ("table", "select on table"), ("view", "select on view"),
   ("streamlit", "usage on streamlit")]

/-- The role-creation statement opening every setup script
(`APP_PUBLIC = "app_public"`). -/
def roleStmt : String := "create application role if not exists app_public;"

/-- The versioned-schema creation statement emitted per distinct schema. -/
def createSchemaStmt (schema : String) : String :=
  "create or alter versioned schema " ++ to_identifier schema ++ ";"

/-- The schema usage grant emitted per distinct schema. -/
def grantSchemaStmt (schema : String) : String :=
  "grant usage on schema " ++ to_identifier schema ++
    " to application role app_public;"

/-- The per-object execute-immediate statement. -/
def executeImmediateStmt (schema object_name : String) : String :=
  "execute immediate from './metadata/" ++ schema ++ "/" ++ object_name ++ ".sql';"

/-- The per-object grant statement: the f-string of generate.py lines
234-237 after `.strip()`, with its embedded newline and the 20-space indent
of the second line. -/
def grantObjectStmt (grant schema object_name : String) : String :=
  "grant " ++ grant ++ "\n                    " ++ to_identifier schema ++ "." ++
    object_name ++ " to application role app_public;"

/-- The statements contributed by one entry of the ordering (generate.py
lines 222-237): parse the name (Python raises `NotAQualifiedNameError` on
failure — parsing happens before the catalog test), skip names that are not
catalog keys, otherwise execute-immediate plus a grant when the kind has a
template. -/
def setupObjectStmts (catalog : Catalog) (fqn : String) :
    Except AppifyError (List String) :=
  match split_fqn_id fqn with
  | none => .error (.notAQualifiedName fqn)
  | some (_db, schema, object_name) =>
    match catalog.lookup fqn with
    | none => .ok []
    | some entry =>
      .ok ([executeImmediateStmt schema object_name] ++
        match GRANT_BY_LOWER_KIND.lookup (pyLower entry.kind) with
        | some grant => [grantObjectStmt grant schema object_name]
        | none => [])

/-- The schema components of all catalog keys, in key order (generate.py
line 216 before deduplication). -/
def schemasOf (catalog : Catalog) : Except AppifyError (List String) :=
  (catalog.map Prod.fst).mapM (fun id =>
    match split_fqn_id id with
    | none => .error (.notAQualifiedName id)
    | some (_db, schema, _name) => .ok schema)

/-- `generate_setup_statements` from `appify/generate.py`, as the list its
caller materialises: the role creation; one schema creation and one usage
grant per distinct schema of the catalog keys (Python's `list(set(...))`
order is unspecified — this model deduplicates keeping first occurrences,
which the verified properties do not depend on); then the per-ordering-entry
object statements. -/
def generate_setup_statements (catalog : Catalog) (ordering : List String) :
    Except AppifyError (List String) := do
  let schemas ← schemasOf catalog
  let objLists ← ordering.mapM (setupObjectStmts catalog)
  pure ([roleStmt] ++
    ((schemas.dedup).map (fun s => [createSchemaStmt s, grantSchemaStmt s])).flatten ++
    objLists.flatten)

/-- The schema part of a parsed catalog key (pure view of `schemasOf`,
meaningful under the parse hypotheses of the theorems using it). -/
def schemaOfKey (id : String) : String :=
  match split_fqn_id id with
  | some (_db, schema, _name) => schema
  | none => ""

/-- The pure per-ordering-entry statement list, equal to `setupObjectStmts`
whenever the entry parses. -/
def objStmtsPure (catalog : Catalog) (fqn : String) : List String :=
  match split_fqn_id fqn with
  | none => []
  | some (_db, schema, object_name) =>
    match catalog.lookup fqn with
    | none => []
    | some entry =>
      [executeImmediateStmt schema object_name] ++
        match GRANT_BY_LOWER_KIND.lookup (pyLower entry.kind) with
        | some grant => [grantObjectStmt grant schema object_name]
        | none => []

/-! ### Streamlit DDL rewrite (`rewrite_ddl`, generate.py lines 124-149) -/

/-- Python `\s` over the ASCII characters a dumped DDL can contain. -/
def pySpace (c : Char) : Bool :=
  c == ' ' || c == '\t' || c == '\n' || c == '\r' || c == '\x0b' || c == '\x0c'

/-- Split on newline characters — the line structure `re.MULTILINE` anchors
to. -/
def splitLines : List Char → List (List Char)
  | [] => [[]]
  | '\n' :: rest => [] :: splitLines rest
  | c :: rest =>
    match splitLines rest with
    | l :: ls => (c :: l) :: ls
    | [] => [[c]]

/-- One line matched against `^\s*<lit>(.+)$`: optional leading whitespace,
the literal, then a non-empty group running to the end of the line. -/
def matchAnchoredLine (lit : List Char) (line : List Char) : Option (List Char) :=
  let t := line.dropWhile pySpace
  if lit.isPrefixOf t then
    let rest := t.drop lit.length
    if rest.isEmpty then none else some rest
  else none

/-- `STREAMLIT_NAME.search`: the first line of the form
`^\s*create or replace streamlit (.+)$` yields the app name. -/
def streamlit_name (ddl : List Char) : Option (List Char) :=
  (splitLines ddl).findSome? (matchAnchoredLine "create or replace streamlit ".toList)

/-- `STREAMLIT_ROOT_LOCATION.search`: the first line of the form
`^\s*root_location='(.+)[\s;]*$`.  The pattern carries no closing quote and
its greedy group swallows the optional `[\s;]*`, so the group is everything
after the first `'` up to the end of the line. -/
def streamlit_root_location (ddl : List Char) : Option (List Char) :=
  (splitLines ddl).findSome? (matchAnchoredLine "root_location='".toList)

/-- One line matched against `^\s*main_file='(.+)'[\s;]*$`: the group ends at
the last `'` that is followed only by whitespace and semicolons, and must be
non-empty. -/
def matchMainFileLine (line : List Char) : Option (List Char) :=
  let t := line.dropWhile pySpace
  if ("main_file='".toList).isPrefixOf t then
    match (t.drop 11).reverse.dropWhile (fun c => pySpace c || c == ';') with
    | '\'' :: body => if body.isEmpty then none else some body.reverse
    | _ => none
  else none

/-- `STREAMLIT_MAIN_FILE.search` over the dumped DDL. -/
def streamlit_main_file (ddl : List Char) : Option (List Char) :=
  (splitLines ddl).findSome? matchMainFileLine

/-- The reconstructed streamlit DDL of generate.py lines 143-149: the
dedented f-string
`create or replace streamlit {schema}.{name} / FROM '{from_clause}' /
MAIN_FILE='{main_file}';` across four lines. -/
def streamlitTemplate (schema : String) (name from_clause main_file : List Char) :
    List Char :=
  '\n' :: ("create or replace streamlit ".toList ++ schema.toList ++ '.' :: name ++
    "\nFROM '".toList ++ from_clause ++ "'\nMAIN_FILE='".toList ++ main_file ++
    "';\n".toList)

/-- The streamlit branch of `rewrite_ddl` (generate.py lines 124-149):
extract the three fields, each with its own anchored pattern and its own
`MalformedDDLError` property name, rewrite the stage imports of the root
location (suffix-free call, line 142) and rebuild the DDL from scratch. -/
def rewrite_ddl_streamlit (stage_ids : List String) (schema : String)
    (ddl : List Char) : Except AppifyError (List Char) :=
  match streamlit_name ddl with
  | none => .error (.malformedDDL "streamlit.name")
  | some name =>
    match streamlit_root_location ddl with
    | none => .error (.malformedDDL "streamlit.root_location")
    | some root =>
      match streamlit_main_file ddl with
      | none => .error (.malformedDDL "streamlit.main_file")
      | some mainf =>
        (rewrite_imports stage_ids [] root).map
          (fun fc => streamlitTemplate schema name fc mainf)

/-! ### Create-statement header rewrite (`rewrite_ddl`, generate.py lines
151-174) -/

/-- Case-insensitive ASCII character comparison (`re.IGNORECASE`). -/
def charCI (a b : Char) : Bool := a.toLower == b.toLower

/-- Case-insensitive literal match at the head of the input, returning the
rest. -/
def stripLitCI : List Char → List Char → Option (List Char)
  | [], s => some s
  | _ :: _, [] => none
  | p :: ps, c :: cs => if charCI p c then stripLitCI ps cs else none

/-- The tail test `\s*[(\n]` after the identifier: since `\n` is itself a
whitespace character, the regex matches exactly when the leading whitespace
run contains a newline or the first character after it is `(`. -/
def headerTailOk (r : List Char) : Bool :=
  (r.takeWhile pySpace).contains '\n' ||
    (match r.dropWhile pySpace with
     | '(' :: _ => true
     | _ => false)

/-- The header regex of generate.py line 162,
`^(create or replace ([a-zA-Z_]+) {IDENTIFIER})\s*[(\n]` with
`re.IGNORECASE`, matched at the start of the DDL (`re.match`).  Returns the
kind keyword exactly as spelled in the DDL and the length of group 1
(`finalpos`). -/
def matchCreateHeader (ddl : List Char) : Option (List Char × Nat) :=
  match stripLitCI "create or replace ".toList ddl with
  | none => none
  | some r1 =>
    let kw := r1.takeWhile (fun c => c.isAlpha || c == '_')
    if kw.isEmpty then none
    else
      match r1.drop kw.length with
      | [] => none
      | c :: r2 =>
        if c = ' ' then
          match parseIdent r2 with
          | none => none
          | some (ident, r3) =>
            if headerTailOk r3 then some (kw, 18 + kw.length + 1 + ident.length)
            else none
        else none

/-- The non-streamlit branch of `rewrite_ddl` up to the header replacement
(generate.py lines 151-174): compute the bare object name — `str.index`
raises `ValueError` for a callable whose name has no `(` — then rebuild the
header around the kind keyword taken from the DDL text itself (line 167,
"otherwise views become tables"). -/
def bare_object_name (kind object_name : String) : Except AppifyError (List Char) :=
  if pyLower kind ∈ ["function", "procedure"] then
    match object_name.toList.findIdx? (fun c => c == '(') with
    | some i => .ok (object_name.toList.take i)
    | none => .error (.valueError "substring not found")
  else
    .ok object_name.toList

/-- The header replacement itself (generate.py lines 161-174): rebuild the
statement head around the kind keyword taken from the DDL text (line 167,
"otherwise views become tables"), the target schema and the bare name;
`MalformedDDLError("{kind}.name")` when the header does not match. -/
def rewrite_ddl_header (kind schema object_name : String) (ddl : List Char) :
    Except AppifyError (List Char) :=
  match bare_object_name kind object_name with
  | .error e => .error e
  | .ok bare =>
    match matchCreateHeader ddl with
    | none => .error (.malformedDDL (kind ++ ".name"))
    | some (kw, finalpos) =>
      .ok ("create or replace ".toList ++ kw ++ ' ' :: schema.toList ++
        '.' :: bare ++ ddl.drop finalpos)

/-- Outcome of the generation phase of the `appify` command (commands.py
lines 63-74): the setup script is generated and written to
`app/setup_script.sql` first; only then does `discover_external_tables`
run, so its error, when any, arrives after the setup script exists. -/
structure AppifyOutcome where
  setupScript : Option (List String)
  error : Option AppifyError
deriving DecidableEq, Repr

/-- The generation phase of `appify` (commands.py lines 63-74): setup-script
generation and writing, then external-table discovery. -/
def appify_generate (catalog : Catalog) (ordering : List String) : AppifyOutcome :=
  match generate_setup_statements catalog ordering with
  | .error e => { setupScript := none, error := some e }
  | .ok setup =>
    match discover_external_tables catalog with
    | .error e => { setupScript := some setup, error := some e }
    | .ok _ => { setupScript := some setup, error := none }

/-- A finite nonempty set of nodes in which every node has a dependency
inside the set contains a node lying on a dependency cycle. -/
theorem stuck_set_has_cycle (g : Graph) (e : List String) (hne : e ≠ [])
    (hstep : ∀ n ∈ e, ∃ b, Edge g n b ∧ b ∈ e) :
    ∃ n ∈ e, OnCycle g n := by
  obtain ⟨s₀, hs₀⟩ : ∃ x, x ∈ e := by
    cases e with
    | nil => exact absurd rfl hne
    | cons h t => exact ⟨h, List.mem_cons_self h t⟩
  have hstep' : ∀ n : {x // x ∈ e}, ∃ b : {x // x ∈ e}, Edge g n.1 b.1 := by
    rintro ⟨n, hn⟩
    obtain ⟨b, hb, hbe⟩ := hstep n hn
    exact ⟨⟨b, hbe⟩, hb⟩
  choose f hf using hstep'
  set u : Nat → {x // x ∈ e} := fun k => f^[k] ⟨s₀, hs₀⟩ with hu
  have hsucc : ∀ k, u (k + 1) = f (u k) := by
    intro k
    simp only [hu, Function.iterate_succ_apply']
  have hchain : ∀ k d, Relation.TransGen (Edge g) (u k).1 (u (k + d + 1)).1 := by
    intro k d
    induction d with
    | zero =>
      have := hf (u k)
      rw [← hsucc k] at this
      exact Relation.TransGen.single this
    | succ d ihd =>
      have hlast := hf (u (k + d + 1))
      rw [← hsucc (k + d + 1)] at hlast
      exact Relation.TransGen.tail ihd hlast
  have hmaps : ∀ i ∈ Finset.range (e.length + 1), (u i).1 ∈ e.toFinset :=
    fun i _ => List.mem_toFinset.mpr (u i).2
  have hcard : e.toFinset.card < (Finset.range (e.length + 1)).card := by
    rw [Finset.card_range]
    exact Nat.lt_succ_of_le e.toFinset_card_le
  obtain ⟨i, hi, j, hj, hij, heq⟩ :=
    Finset.exists_ne_map_eq_of_card_lt_of_maps_to hcard hmaps
  rcases Nat.lt_or_ge i j with hlt | hge
  · obtain ⟨d, rfl⟩ : ∃ d, j = i + d + 1 := ⟨j - i - 1, by omega⟩
    refine ⟨(u i).1, (u i).2, ?_⟩
    have := hchain i d
    rwa [← heq] at this
  · have hlt : j < i := Nat.lt_of_le_of_ne hge (fun he => hij he.symm)
    obtain ⟨d, rfl⟩ : ∃ d, i = j + d + 1 := ⟨i - j - 1, by omega⟩
    refine ⟨(u j).1, (u j).2, ?_⟩
    have := hchain j d
    rwa [heq] at this

/-- C1: whenever the orderer accepts a dependency graph, the sequence it
returns is a total order over all nodes of the graph (a permutation of the
node set), and for every recorded edge (A depends on B) the position of B in
the output strictly precedes the position of A.  Both endpoints of a recorded
edge are always in the node set (`edge_mem_graphNodes`). -/
theorem get_ordering_topological (g : Graph) (l : List String)
    (h : get_ordering g = .ok l) :
    l.Perm (graphNodes g) ∧
      ∀ a b, Edge g a b → l.indexOf b < l.indexOf a := by
  constructor
  · exact kahnAux_ok_perm g _ _ _ h
  · intro a b hab
    obtain ⟨ha, hb⟩ := edge_mem_graphNodes g a b hab
    exact kahnAux_ok_edge g _ _ _ h (List.nodup_dedup _) a b hab ha hb

/-- Witness for `get_ordering_topological` on the two-node graph where
`DB.S1.B` depends on `DB.S1.A`. -/
theorem get_ordering_topological_witness :
    get_ordering [("DB.S1.B", ["DB.S1.A"]), ("DB.S1.A", [])] =
        .ok ["DB.S1.A", "DB.S1.B"] ∧
      (["DB.S1.A", "DB.S1.B"].Perm
          (graphNodes [("DB.S1.B", ["DB.S1.A"]), ("DB.S1.A", [])]) ∧
        ∀ a b, Edge [("DB.S1.B", ["DB.S1.A"]), ("DB.S1.A", [])] a b →
          ["DB.S1.A", "DB.S1.B"].indexOf b < ["DB.S1.A", "DB.S1.B"].indexOf a) :=
  ⟨by decide, get_ordering_topological _ _ (by decide)⟩

/-- C2: a dependency graph containing a cycle is never ordered — no ordering
is returned for it (no edge is dropped to force an order) — and the orderer
fails carrying a set of nodes at least one of which lies on a cycle. -/
theorem get_ordering_cyclic (g : Graph) (h : HasCycle g) :
    (∀ l, get_ordering g ≠ .ok l) ∧
      ∃ e, get_ordering g = .error e ∧ ∃ n ∈ e, OnCycle g n := by
  have hnotok : ∀ l, get_ordering g ≠ .ok l := by
    intro l hok
    obtain ⟨n, hn⟩ := h
    have hedge : ∀ a b, Edge g a b → l.indexOf b < l.indexOf a := by
      intro a b hab
      obtain ⟨ha, hb⟩ := edge_mem_graphNodes g a b hab
      exact kahnAux_ok_edge g _ _ _ hok (List.nodup_dedup _) a b hab ha hb
    have hdesc : ∀ a b, Relation.TransGen (Edge g) a b →
        l.indexOf b < l.indexOf a := by
      intro a b hab
      induction hab with
      | single h' => exact hedge _ _ h'
      | tail _ h' ihd => exact Nat.lt_trans (hedge _ _ h') ihd
    exact Nat.lt_irrefl _ (hdesc n n hn)
  refine ⟨hnotok, ?_⟩
  cases hres : get_ordering g with
  | ok l => exact absurd hres (hnotok l)
  | error e =>
    obtain ⟨hne, hstep⟩ :=
      kahnAux_error_stuck g (graphNodes g).length (graphNodes g) e hres
        (Nat.le_refl _)
    exact ⟨e, rfl, stuck_set_has_cycle g e hne hstep⟩

/-- Witness for `get_ordering_cyclic` on the graph {X depends on Y, Y depends
on X} from the spec's cycle-detection property. -/
theorem get_ordering_cyclic_witness :
    HasCycle [("X", ["Y"]), ("Y", ["X"])] ∧
      ((∀ l, get_ordering [("X", ["Y"]), ("Y", ["X"])] ≠ .ok l) ∧
        ∃ e, get_ordering [("X", ["Y"]), ("Y", ["X"])] = .error e ∧
          ∃ n ∈ e, OnCycle [("X", ["Y"]), ("Y", ["X"])] n) :=
  have hcyc : HasCycle [("X", ["Y"]), ("Y", ["X"])] :=
    ⟨"X", Relation.TransGen.tail
      (Relation.TransGen.single
        (show Edge [("X", ["Y"]), ("Y", ["X"])] "X" "Y" by decide))
      (show Edge [("X", ["Y"]), ("Y", ["X"])] "Y" "X" by decide)⟩
  ⟨hcyc, get_ordering_cyclic _ hcyc⟩

/-- A fold in `Except` fails whenever some list element fails on every
accumulator. -/
theorem foldlM_error_of_mem {α β : Type} (f : β → α → Except AppifyError β)
    (x : α) (err : AppifyError) (hf : ∀ b, f b x = .error err) :
    ∀ (l : List α), x ∈ l → ∀ init, ∃ e, l.foldlM f init = .error e := by
  intro l
  induction l with
  | nil => intro hx; cases hx
  | cons y ys ih =>
    intro hx init
    rcases List.mem_cons.mp hx with rfl | hmem
    · exact ⟨err, by rw [List.foldlM_cons, hf init]; rfl⟩
    · cases hfy : f init y with
      | error e => exact ⟨e, by rw [List.foldlM_cons, hfy]; rfl⟩
      | ok b =>
        obtain ⟨e, he⟩ := ih hmem b
        have hstep : (y :: ys).foldlM f init = ys.foldlM f b := by
          rw [List.foldlM_cons, hfy]; rfl
        exact ⟨e, by rw [hstep, he]⟩

/-- A map in `Except` succeeds pointwise. -/
theorem mapM_ok_of_forall {α β : Type} (f : α → Except AppifyError β) (g : α → β) :
    ∀ l : List α, (∀ x ∈ l, f x = .ok (g x)) → l.mapM f = .ok (l.map g) := by
  intro l
  induction l with
  | nil => intro _; rfl
  | cons x xs ih =>
    intro h
    rw [List.mapM_cons, h x (List.mem_cons_self x xs),
      ih (fun y hy => h y (List.mem_cons_of_mem x hy))]
    rfl

/-- C3 counterexample: processing the references of view `DB.PUBLIC.V`, which
references table `OTHER.PUBLIC.T` of a foreign database, hands the
topological orderer a graph whose node set contains `OTHER.PUBLIC.T` even
though the catalog key set is just {DB.PUBLIC.V}, and the returned ordering
contains the external name — external references are not excluded from the
ordering graph. -/
theorem external_reference_not_excluded :
    "OTHER.PUBLIC.T" ∈ graphNodes
        (update_references [] "DB" "PUBLIC" "V" [("OTHER.PUBLIC.T", "TABLE")]) ∧
      "OTHER.PUBLIC.T" ∉ (update_references [] "DB" "PUBLIC" "V"
        [("OTHER.PUBLIC.T", "TABLE")]).map Prod.fst ∧
      get_ordering (update_references [] "DB" "PUBLIC" "V"
        [("OTHER.PUBLIC.T", "TABLE")]) = .ok ["OTHER.PUBLIC.T", "DB.PUBLIC.V"] := by
  decide

/-- C3 amended: `update_references` records every cleaned reference name as a
node of the ordering graph regardless of catalog membership, and whenever
the orderer accepts the graph the name appears in the returned ordering;
catalog-external names are filtered out only later, by
`generate_setup_statements`. -/
theorem update_references_keeps_every_reference (graph : Graph)
    (database schema object_name : String)
    (references_list : List (String × String)) (ref : String × String)
    (href : ref ∈ references_list) :
    clean_ref_name ref ∈ graphNodes
        (update_references graph database schema object_name references_list) ∧
      ∀ l, get_ordering (update_references graph database schema object_name
          references_list) = .ok l → clean_ref_name ref ∈ l := by
  have hmem : clean_ref_name ref ∈ graphNodes
      (update_references graph database schema object_name references_list) := by
    unfold graphNodes update_references
    apply List.mem_dedup.mpr
    apply List.mem_append_right
    apply List.mem_flatten.mpr
    refine ⟨(references_list.map clean_ref_name).dedup, ?_, ?_⟩
    · exact List.mem_map.mpr
        ⟨(get_object_fully_qualified_name database schema object_name,
          (references_list.map clean_ref_name).dedup), by simp, rfl⟩
    · exact List.mem_dedup.mpr (List.mem_map.mpr ⟨ref, href, rfl⟩)
  exact ⟨hmem, fun l hok => (kahnAux_ok_perm _ _ _ _ hok).mem_iff.mpr hmem⟩

/-- Witness for `update_references_keeps_every_reference` at the external
table reference of the C3 counterexample. -/
theorem update_references_keeps_every_reference_witness :
    ("OTHER.PUBLIC.T", "TABLE") ∈ [("OTHER.PUBLIC.T", "TABLE")] ∧
      (clean_ref_name ("OTHER.PUBLIC.T", "TABLE") ∈ graphNodes
          (update_references [] "DB" "PUBLIC" "V" [("OTHER.PUBLIC.T", "TABLE")]) ∧
        ∀ l, get_ordering (update_references [] "DB" "PUBLIC" "V"
            [("OTHER.PUBLIC.T", "TABLE")]) = .ok l →
          clean_ref_name ("OTHER.PUBLIC.T", "TABLE") ∈ l) :=
  ⟨by decide, update_references_keeps_every_reference [] "DB" "PUBLIC" "V"
    [("OTHER.PUBLIC.T", "TABLE")] ("OTHER.PUBLIC.T", "TABLE") (by decide)⟩

/-- The catalog of the first C4 counterexample: a function of database `DB`
referencing a table of the different database `DB2`, whose name
nevertheless starts with the characters `DB`. -/
def cexPrefixCatalog : Catalog :=
  [("DB.S.O", ⟨"function", [("DB2.PUBLIC.T", "TABLE")], "DB"⟩)]

/-- The catalog of the second C4 counterexample: the same function
referencing a table of database `XDB`, which shares no prefix with `DB`. -/
def cexExternalCatalog : Catalog :=
  [("DB.S.O", ⟨"function", [("XDB.PUBLIC.T", "TABLE")], "DB"⟩)]

/-- C4 counterexample.  First conjunct: in `cexPrefixCatalog` the non-view
object `DB.S.O` references table `DB2.PUBLIC.T`, owned by the different
database `DB2`, yet the pipeline raises nothing — externality is tested with
`fqn.startswith(database)`, and `DB2.PUBLIC.T` starts with `DB`.  Second
conjunct: in `cexExternalCatalog` the error is raised, but the setup script,
including the execute-immediate statement referencing `DB.S.O`, has already
been generated and written — the error does not abort before that
emission. -/
theorem unsupported_external_reference_claim_fails :
    (split_fqn_id "DB2.PUBLIC.T" = some ("DB2", "PUBLIC", "T") ∧ "DB2" ≠ "DB" ∧
      pyLower "function" ≠ "table" ∧
      (appify_generate cexPrefixCatalog ["DB.S.O"]).error = none) ∧
    ((appify_generate cexExternalCatalog ["DB.S.O"]).error =
        some (.unsupportedExternalReference "function" "DB.S.O") ∧
      (appify_generate cexExternalCatalog ["DB.S.O"]).setupScript =
        some [roleStmt, createSchemaStmt "S", grantSchemaStmt "S",
          executeImmediateStmt "S" "O",
          grantObjectStmt "usage on function" "S" "O"]) := by
  decide

/-- C4 amended: when some catalog object has a `table`-kind reference that
does not start with the object's database name (the code's prefix-based
externality test) and the object's kind label (lowercased) is not `table` —
the label views carry — `discover_external_tables` fails; and whenever it
fails while the setup statements generate, the pipeline has already
generated and written the full setup script before the error surfaces. -/
theorem discover_external_raises_after_emission (catalog : Catalog)
    (ordering : List String) (id : String) (entry : CatalogEntry)
    (hin : (id, entry) ∈ catalog)
    (hext : get_external_referenced_tables entry ≠ [])
    (hkind : pyLower entry.kind ≠ "table") :
    (∃ e, discover_external_tables catalog = .error e) ∧
      ∀ e s, discover_external_tables catalog = .error e →
        generate_setup_statements catalog ordering = .ok s →
        appify_generate catalog ordering = ⟨some s, some e⟩ := by
  constructor
  · unfold discover_external_tables
    apply foldlM_error_of_mem discover_step (id, entry)
      (.unsupportedExternalReference entry.kind id) _ catalog hin
    intro b
    have hne : ¬ (get_external_referenced_tables entry).isEmpty = true :=
      fun hB => hext (List.isEmpty_iff.mp hB)
    simp only [discover_step]
    rw [if_neg hne, if_pos hkind]
    rfl
  · intro e s he hs
    unfold appify_generate
    rw [hs, he]

/-- Witness for `discover_external_raises_after_emission` at
`cexExternalCatalog`. -/
theorem discover_external_raises_after_emission_witness :
    ("DB.S.O", (⟨"function", [("XDB.PUBLIC.T", "TABLE")], "DB"⟩ : CatalogEntry))
        ∈ cexExternalCatalog ∧
      get_external_referenced_tables ⟨"function", [("XDB.PUBLIC.T", "TABLE")], "DB"⟩ ≠ [] ∧
      pyLower "function" ≠ "table" ∧
      ((∃ e, discover_external_tables cexExternalCatalog = .error e) ∧
        ∀ e s, discover_external_tables cexExternalCatalog = .error e →
          generate_setup_statements cexExternalCatalog ["DB.S.O"] = .ok s →
          appify_generate cexExternalCatalog ["DB.S.O"] = ⟨some s, some e⟩) :=
  ⟨by decide, by decide, by decide,
    discover_external_raises_after_emission cexExternalCatalog ["DB.S.O"]
      "DB.S.O" ⟨"function", [("XDB.PUBLIC.T", "TABLE")], "DB"⟩
      (by decide) (by decide) (by decide)⟩

/-- C8: for a catalog whose keys are fully-qualified names and an ordering of
fully-qualified names, the generated setup statements begin with the role
creation, then exactly one schema creation and one usage grant per distinct
schema among the catalog keys (deduplicated, all before any object
statement), then, per ordering entry in order, nothing when the name is not
a catalog key and otherwise an execute-immediate statement for the object's
file path followed by a kind-specific grant exactly when the kind has a
grant template. -/
theorem generate_setup_statements_shape (catalog : Catalog) (ordering : List String)
    (hkeys : ∀ id ∈ catalog.map Prod.fst, (split_fqn_id id).isSome)
    (hord : ∀ fqn ∈ ordering, (split_fqn_id fqn).isSome) :
    ∃ l, generate_setup_statements catalog ordering = .ok l ∧
      l = [roleStmt] ++
        ((((catalog.map Prod.fst).map schemaOfKey).dedup).map
          (fun s => [createSchemaStmt s, grantSchemaStmt s])).flatten ++
        (ordering.map (objStmtsPure catalog)).flatten ∧
      (((catalog.map Prod.fst).map schemaOfKey).dedup).Nodup ∧
      (∀ s, s ∈ ((catalog.map Prod.fst).map schemaOfKey).dedup ↔
        ∃ id ∈ catalog.map Prod.fst, schemaOfKey id = s) ∧
      (∀ fqn ∈ ordering, catalog.lookup fqn = none →
        objStmtsPure catalog fqn = []) ∧
      (∀ fqn ∈ ordering, ∀ entry, catalog.lookup fqn = some entry →
        ∀ db schema object_name, split_fqn_id fqn = some (db, schema, object_name) →
          objStmtsPure catalog fqn =
            [executeImmediateStmt schema object_name] ++
              match GRANT_BY_LOWER_KIND.lookup (pyLower entry.kind) with
              | some grant => [grantObjectStmt grant schema object_name]
              | none => []) := by
  have hschemas : schemasOf catalog = .ok ((catalog.map Prod.fst).map schemaOfKey) := by
    apply mapM_ok_of_forall
    intro id hid
    have hs := hkeys id hid
    cases hsp : split_fqn_id id with
    | none => rw [hsp] at hs; simp at hs
    | some t =>
      obtain ⟨db, schema, name⟩ := t
      unfold schemaOfKey
      rw [hsp]
  have hobj : ordering.mapM (setupObjectStmts catalog) =
      .ok (ordering.map (objStmtsPure catalog)) := by
    apply mapM_ok_of_forall
    intro fqn hf
    have hs := hord fqn hf
    cases hsp : split_fqn_id fqn with
    | none => rw [hsp] at hs; simp at hs
    | some t =>
      obtain ⟨db, schema, name⟩ := t
      unfold setupObjectStmts objStmtsPure
      rw [hsp]
      cases catalog.lookup fqn <;> rfl
  refine ⟨_, ?_, rfl, List.nodup_dedup _, ?_, ?_, ?_⟩
  · unfold generate_setup_statements
    rw [hschemas]
    show (ordering.mapM (setupObjectStmts catalog) >>= _) = _
    rw [hobj]
    rfl
  · intro s
    rw [List.mem_dedup]
    constructor
    · intro hmem
      obtain ⟨id, hid, he⟩ := List.mem_map.mp hmem
      exact ⟨id, hid, he⟩
    · rintro ⟨id, hid, he⟩
      exact List.mem_map.mpr ⟨id, hid, he⟩
  · intro fqn _ hnone
    unfold objStmtsPure
    cases hsp : split_fqn_id fqn with
    | none => rfl
    | some t =>
      obtain ⟨db, schema, name⟩ := t
      rw [hnone]
  · intro fqn _ entry hent db schema object_name hsp
    unfold objStmtsPure
    rw [hsp, hent]

/-- Witness for `generate_setup_statements_shape` at the spec's setup-script
scenario: catalog {DB.S1.A : table, DB.S1.B : view}, ordering [A, B]. -/
theorem generate_setup_statements_shape_witness :
    (∀ id ∈ ([("DB.S1.A", (⟨"table", [], "DB"⟩ : CatalogEntry)),
        ("DB.S1.B", ⟨"view", [("DB.S1.A", "TABLE")], "DB"⟩)] : Catalog).map Prod.fst,
      (split_fqn_id id).isSome) ∧
    (∀ fqn ∈ ["DB.S1.A", "DB.S1.B"], (split_fqn_id fqn).isSome) ∧
    ∃ l, generate_setup_statements
        [("DB.S1.A", ⟨"table", [], "DB"⟩),
          ("DB.S1.B", ⟨"view", [("DB.S1.A", "TABLE")], "DB"⟩)]
        ["DB.S1.A", "DB.S1.B"] = .ok l :=
  ⟨by decide, by decide,
    (generate_setup_statements_shape
      [("DB.S1.A", ⟨"table", [], "DB"⟩),
        ("DB.S1.B", ⟨"view", [("DB.S1.A", "TABLE")], "DB"⟩)]
      ["DB.S1.A", "DB.S1.B"] (by decide) (by decide)).imp
      (fun _ h => h.1)⟩

theorem stripLitCI_sound : ∀ (lit s r : List Char), stripLitCI lit s = some r →
    s.drop lit.length = r ∧
      List.Forall₂ (fun a b => charCI a b = true) lit (s.take lit.length) := by
  intro lit
  induction lit with
  | nil =>
    intro s r h
    injection h with h'
    subst h'
    simp
  | cons p ps ih =>
    intro s r h
    cases s with
    | nil => simp [stripLitCI] at h
    | cons c cs =>
      simp only [stripLitCI] at h
      by_cases hc : charCI p c
      · rw [if_pos (by simpa using hc)] at h
        obtain ⟨hdrop, hfa⟩ := ih cs r h
        refine ⟨by simpa using hdrop, ?_⟩
        simp only [List.length_cons, List.take_succ_cons]
        exact List.Forall₂.cons hc hfa
      · rw [if_neg (by simpa using hc)] at h
        cases h

/-- Soundness of the header matcher: the returned keyword is spelled in the
DDL text itself, at the 18 positions-deep offset right after the
case-insensitively matched `create or replace ` literal. -/
theorem matchCreateHeader_kw (ddl kw : List Char) (pos : Nat)
    (h : matchCreateHeader ddl = some (kw, pos)) :
    (ddl.drop 18).take kw.length = kw ∧
      List.Forall₂ (fun a b => charCI a b = true)
        "create or replace ".toList (ddl.take 18) := by
  cases hstrip : stripLitCI "create or replace ".toList ddl with
  | none =>
    simp only [matchCreateHeader, hstrip] at h
    exact Option.noConfusion h
  | some r1 =>
    simp only [matchCreateHeader, hstrip] at h
    obtain ⟨hdrop, hfa⟩ := stripLitCI_sound _ _ _ hstrip
    have hdrop18 : ddl.drop 18 = r1 := hdrop
    have hkweq : kw = r1.takeWhile (fun c => c.isAlpha || c == '_') := by
      by_cases hkw : (r1.takeWhile fun c => c.isAlpha || c == '_').isEmpty
      · rw [if_pos hkw] at h; cases h
      · rw [if_neg hkw] at h
        cases hd : r1.drop (r1.takeWhile fun c => c.isAlpha || c == '_').length with
        | nil => rw [hd] at h; cases h
        | cons c r2 =>
          rw [hd] at h
          dsimp only at h
          by_cases hc : c = ' '
          · rw [if_pos hc] at h
            cases hpi : parseIdent r2 with
            | none => rw [hpi] at h; cases h
            | some p =>
              obtain ⟨ident, r3⟩ := p
              rw [hpi] at h
              dsimp only at h
              by_cases ht : headerTailOk r3
              · rw [if_pos ht] at h
                injection h with h'
                exact (congrArg Prod.fst h').symm
              · rw [if_neg ht] at h; cases h
          · rw [if_neg hc] at h
            cases h
    constructor
    · rw [hdrop18, hkweq]
      have hpre : (r1.takeWhile fun c => c.isAlpha || c == '_') <+: r1 :=
        List.takeWhile_prefix _
      exact (List.prefix_iff_eq_take.mp hpre).symm
    · exact hfa

/-- C7: whenever the dumped DDL of a non-streamlit entry matches the
create-statement header, the kind keyword of the matched header — `kw`,
which is verbatim the text of the DDL right after the case-insensitive
`create or replace ` literal — is the keyword of every successful rewrite,
whatever kind label the catalog declares for the entry; and the catalog kind
label never changes the rewritten statement among non-callable labels. -/
theorem rewrite_ddl_header_keeps_ddl_kind (schema object_name : String)
    (ddl kw : List Char) (pos : Nat)
    (hmatch : matchCreateHeader ddl = some (kw, pos)) :
    (ddl.drop 18).take kw.length = kw ∧
      (∀ kind out, rewrite_ddl_header kind schema object_name ddl = .ok out →
        ∃ tail, out = "create or replace ".toList ++ (kw ++ (' ' :: tail))) ∧
      ∀ k₁ k₂, pyLower k₁ ∉ ["function", "procedure"] →
        pyLower k₂ ∉ ["function", "procedure"] →
        rewrite_ddl_header k₁ schema object_name ddl =
          rewrite_ddl_header k₂ schema object_name ddl := by
  refine ⟨(matchCreateHeader_kw ddl kw pos hmatch).1, ?_, ?_⟩
  · intro kind out hout
    unfold rewrite_ddl_header at hout
    cases hb : bare_object_name kind object_name with
    | error e =>
      rw [hb] at hout
      dsimp only at hout
      exact Except.noConfusion hout
    | ok bare =>
      rw [hb] at hout
      dsimp only at hout
      rw [hmatch] at hout
      dsimp only at hout
      injection hout with h'
      exact ⟨schema.toList ++ '.' :: bare ++ ddl.drop pos, by rw [← h']; simp⟩
  · intro k₁ k₂ h₁ h₂
    unfold rewrite_ddl_header bare_object_name
    rw [if_neg h₁, if_neg h₂]
    dsimp only
    rw [hmatch]

/-- Witness for `rewrite_ddl_header_keeps_ddl_kind`: the catalog labels this
entry a `table`, the dumped DDL says `view`, and the rewrite keeps `view`. -/
theorem rewrite_ddl_header_keeps_ddl_kind_witness :
    matchCreateHeader "create or replace view MYVIEW (a) as select 1".toList =
        some ("view".toList, 29) ∧
      rewrite_ddl_header "table" "S1" "MYVIEW"
          "create or replace view MYVIEW (a) as select 1".toList =
        .ok "create or replace view S1.MYVIEW (a) as select 1".toList ∧
      (("create or replace view MYVIEW (a) as select 1".toList.drop 18).take
          "view".toList.length = "view".toList ∧
        (∀ kind out, rewrite_ddl_header kind "S1" "MYVIEW"
            "create or replace view MYVIEW (a) as select 1".toList = .ok out →
          ∃ tail, out = "create or replace ".toList ++ ("view".toList ++ (' ' :: tail))) ∧
        ∀ k₁ k₂, pyLower k₁ ∉ ["function", "procedure"] →
          pyLower k₂ ∉ ["function", "procedure"] →
          rewrite_ddl_header k₁ "S1" "MYVIEW"
              "create or replace view MYVIEW (a) as select 1".toList =
            rewrite_ddl_header k₂ "S1" "MYVIEW"
              "create or replace view MYVIEW (a) as select 1".toList) :=
  ⟨by decide, by decide,
    rewrite_ddl_header_keeps_ddl_kind "S1" "MYVIEW"
      "create or replace view MYVIEW (a) as select 1".toList
      "view".toList 29 (by decide)⟩

/-- C10: a callable catalog entry whose object name carries no `(` makes the
header rewrite of `rewrite_ddl` fail with Python's `ValueError` from
`str.index` ("substring not found"), never with a `MalformedDDLError` —
whatever the DDL text — so the rewriter is total only under the
call-signature precondition. -/
theorem rewrite_ddl_header_requires_signature (kind schema object_name : String)
    (ddl : List Char)
    (hcall : pyLower kind ∈ ["function", "procedure"])
    (hnopar : ¬ '(' ∈ object_name.toList) :
    rewrite_ddl_header kind schema object_name ddl =
        .error (.valueError "substring not found") ∧
      ∀ p, rewrite_ddl_header kind schema object_name ddl ≠
        .error (.malformedDDL p) := by
  have hidx : object_name.toList.findIdx? (fun c => c == '(') = none := by
    rw [List.findIdx?_eq_none_iff]
    intro x hx
    by_cases he : x = '('
    · subst he
      exact absurd hx hnopar
    · simp [he]
  have hres : rewrite_ddl_header kind schema object_name ddl =
      .error (.valueError "substring not found") := by
    unfold rewrite_ddl_header bare_object_name
    rw [if_pos hcall, hidx]
  exact ⟨hres, fun p hcon => by rw [hres] at hcon; simp at hcon⟩

/-- Witness for `rewrite_ddl_header_requires_signature` at a function entry
named `FN` with no call signature. -/
theorem rewrite_ddl_header_requires_signature_witness :
    pyLower "function" ∈ ["function", "procedure"] ∧
      ¬ '(' ∈ "FN".toList ∧
      (rewrite_ddl_header "function" "S1" "FN"
          "create or replace function FN (a int)".toList =
        .error (.valueError "substring not found") ∧
      ∀ p, rewrite_ddl_header "function" "S1" "FN"
          "create or replace function FN (a int)".toList ≠
        .error (.malformedDDL p)) :=
  ⟨by decide, by decide,
    rewrite_ddl_header_requires_signature "function" "S1" "FN"
      "create or replace function FN (a int)".toList (by decide) (by decide)⟩

/-- C6: the streamlit rewrite extracts exactly three fields, each with its
own anchored pattern; the first pattern that fails determines the
`MalformedDDLError` property name (`streamlit.name`,
`streamlit.root_location`, `streamlit.main_file`), and when all three match
the DDL is rebuilt from scratch from the template, with the relocated root
location substituted and the name and main file preserved. -/
theorem rewrite_ddl_streamlit_fields (stage_ids : List String) (schema : String)
    (ddl : List Char) :
    (streamlit_name ddl = none →
      rewrite_ddl_streamlit stage_ids schema ddl =
        .error (.malformedDDL "streamlit.name")) ∧
    (∀ name, streamlit_name ddl = some name →
      streamlit_root_location ddl = none →
      rewrite_ddl_streamlit stage_ids schema ddl =
        .error (.malformedDDL "streamlit.root_location")) ∧
    (∀ name root, streamlit_name ddl = some name →
      streamlit_root_location ddl = some root →
      streamlit_main_file ddl = none →
      rewrite_ddl_streamlit stage_ids schema ddl =
        .error (.malformedDDL "streamlit.main_file")) ∧
    (∀ name root mainf fc, streamlit_name ddl = some name →
      streamlit_root_location ddl = some root →
      streamlit_main_file ddl = some mainf →
      rewrite_imports stage_ids [] root = .ok fc →
      rewrite_ddl_streamlit stage_ids schema ddl =
        .ok (streamlitTemplate schema name fc mainf)) := by
  refine ⟨?_, ?_, ?_, ?_⟩
  · intro hn
    unfold rewrite_ddl_streamlit
    rw [hn]
  · intro name hn hr
    unfold rewrite_ddl_streamlit
    rw [hn, hr]
  · intro name root hn hr hm
    unfold rewrite_ddl_streamlit
    rw [hn, hr, hm]
  · intro name root mainf fc hn hr hm hrw
    unfold rewrite_ddl_streamlit
    rw [hn, hr, hm]
    dsimp only
    rw [hrw]
    rfl

/-- Witness for `rewrite_ddl_streamlit_fields` at the spec's streamlit
scenario text, whose dump lacks `main_file=`: the rewrite fails naming
`streamlit.main_file`. -/
theorem rewrite_ddl_streamlit_fields_witness :
    streamlit_name
        "create or replace streamlit MYAPP\nroot_location='@db.sc.st/path".toList =
      some "MYAPP".toList ∧
    streamlit_root_location
        "create or replace streamlit MYAPP\nroot_location='@db.sc.st/path".toList =
      some "@db.sc.st/path".toList ∧
    streamlit_main_file
        "create or replace streamlit MYAPP\nroot_location='@db.sc.st/path".toList =
      none ∧
    rewrite_ddl_streamlit [] "S1"
        "create or replace streamlit MYAPP\nroot_location='@db.sc.st/path".toList =
      .error (.malformedDDL "streamlit.main_file") :=
  ⟨by decide, by decide, by decide,
    (rewrite_ddl_streamlit_fields [] "S1"
        "create or replace streamlit MYAPP\nroot_location='@db.sc.st/path".toList).2.2.1
      "MYAPP".toList "@db.sc.st/path".toList (by decide) (by decide) (by decide)⟩

/-- C9: for two names both accepted by the identifier parser, `fqn_matches`
returns `True` exactly when the database, schema and object-name parts are
pairwise equal after quoting removal (`unquote_identifier` strips quoting
and case-folds unquoted parts), independent of the casing/quoting style of
either input. -/
theorem fqn_matches_iff (a b a1 a2 a3 b1 b2 b3 : String)
    (ha : split_fqn_id a = some (a1, a2, a3))
    (hb : split_fqn_id b = some (b1, b2, b3)) :
    fqn_matches a b = .ok true ↔
      (unquote_identifier a1 = unquote_identifier b1 ∧
        unquote_identifier a2 = unquote_identifier b2 ∧
        unquote_identifier a3 = unquote_identifier b3) := by
  unfold fqn_matches
  rw [ha, hb]
  dsimp only
  constructor
  · intro h
    injection h with h'
    exact of_decide_eq_true h'
  · intro h
    rw [decide_eq_true h]

/-- Witness for `fqn_matches_iff`: `MYDB.MySchema.OBJ` in unquoted spelling
matches its mixed quoted spelling `"MYDB".myschema."OBJ"`. -/
theorem fqn_matches_iff_witness :
    split_fqn_id "MYDB.MySchema.OBJ" = some ("MYDB", "MySchema", "OBJ") ∧
      split_fqn_id "\"MYDB\".myschema.\"OBJ\"" =
        some ("\"MYDB\"", "myschema", "\"OBJ\"") ∧
      (fqn_matches "MYDB.MySchema.OBJ" "\"MYDB\".myschema.\"OBJ\"" = .ok true ↔
        (unquote_identifier "MYDB" = unquote_identifier "\"MYDB\"" ∧
          unquote_identifier "MySchema" = unquote_identifier "myschema" ∧
          unquote_identifier "OBJ" = unquote_identifier "\"OBJ\"")) ∧
      fqn_matches "MYDB.MySchema.OBJ" "\"MYDB\".myschema.\"OBJ\"" = .ok true :=
  ⟨by decide, by decide,
    fqn_matches_iff "MYDB.MySchema.OBJ" "\"MYDB\".myschema.\"OBJ\""
      "MYDB" "MySchema" "OBJ" "\"MYDB\"" "myschema" "\"OBJ\""
      (by decide) (by decide),
    by decide⟩

/-- Witness for `rewrite_imports_relocates_known_stage` at concrete context
strings. -/
theorem rewrite_imports_relocates_known_stage_witness :
    '@' ∉ "x ".toList ∧ '@' ∉ " y ".toList ∧ '@' ∉ " z".toList ∧
    rewrite_imports ["mydb.myschema.mystage"] "/".toList
        ("x ".toList ++ "@mydb.myschema.mystage/path/to/file".toList ++ " y ".toList ++
          "@other.stage/".toList ++ " z".toList) =
      .ok ("x ".toList ++ "/stages/mydb/myschema/mystage/path/to/file".toList ++ " y ".toList ++
          "@other.stage/".toList ++ " z".toList) :=
  ⟨by decide, by decide, by decide,
    rewrite_imports_relocates_known_stage "x ".toList " y ".toList " z".toList
      (by decide) (by decide) (by decide)⟩

end Appify
